import Mathlib

/-!
Verification of the camerge calendar-merging library.

The Python source (src/camerge/__init__.py) is embedded shallowly:
events are association lists from property names to values, dates are
triples compared lexicographically, MD5 is implemented in full, and the
fallible parts (fetching, parsing) are modelled with `Option`/`Except`.
External collaborators (the icalendar parser/serializer, the network and
filesystem) are modelled from the specification's contracts; everything
else is translated from the source.
-/

set_option autoImplicit false

namespace Camerge

/-! ## String utilities (structural, so that concrete evaluation reduces) -/

/-- Prefix test on character lists. -/
def listPref : List Char → List Char → Bool
  | [], _ => true
  | _ :: _, [] => false
  | a :: as, b :: bs => a == b && listPref as bs

/-- Substring test on character lists, Python's `needle in hay`. -/
def listSub (needle : List Char) : List Char → Bool
  | [] => listPref needle []
  | c :: rest => listPref needle (c :: rest) || listSub needle rest

/-- Python `needle in hay` on strings. -/
def strContains (hay needle : String) : Bool :=
  listSub needle.data hay.data

/-- Python `s.startswith(p)`. -/
def strStarts (s p : String) : Bool :=
  listPref p.data s.data

/-- Python `s[n:]`. -/
def strDrop (s : String) (n : Nat) : String :=
  String.mk (s.data.drop n)

/-- Python `s.replace('\n', '')` as used in `__determine_status`. -/
def removeNl (s : String) : String :=
  String.mk (s.data.filter (fun c => !(c == '\n')))

/-- ASCII lower-casing of one character. -/
def charLower (c : Char) : Char :=
  if 'A' ≤ c && c ≤ 'Z' then Char.ofNat (c.toNat + 32) else c

/-- ASCII lower-casing, for icalendar's caseless property names. -/
def strLower (s : String) : String :=
  String.mk (s.data.map charLower)

/-- Split a character list at a separator character. -/
def splitCh (sep : Char) : List Char → List (List Char)
  | [] => [[]]
  | c :: rest =>
    match splitCh sep rest with
    | [] => [[c]]
    | h :: t => if c == sep then [] :: h :: t else (c :: h) :: t

/-- ASCII upper-casing of one character. -/
def charUpper (c : Char) : Char :=
  if 'a' ≤ c && c ≤ 'z' then Char.ofNat (c.toNat - 32) else c

/-- ASCII upper-casing. -/
def strUpper (s : String) : String :=
  String.mk (s.data.map charUpper)

/-- Replace every occurrence of a non-empty pattern, Python `s.replace(p, r)`
(`fuel` bounds the recursion). -/
def replaceList (pat repl : List Char) : Nat → List Char → List Char
  | 0, l => l
  | _ + 1, [] => []
  | fuel + 1, c :: rest =>
    if !pat.isEmpty && listPref pat (c :: rest) then
      repl ++ replaceList pat repl fuel ((c :: rest).drop pat.length)
    else
      c :: replaceList pat repl fuel rest

/-- Python `s.replace(pat, repl)`. -/
def strReplace (s pat repl : String) : String :=
  String.mk (replaceList pat.data repl.data s.data.length s.data)

/-! ## Dates and times

Python `datetime.date` values compare lexicographically by
(year, month, day); `datetime.datetime.date()` truncates the time away. -/

structure Date where
  year : Nat
  month : Nat
  day : Nat
  deriving DecidableEq, Repr

/-- Python `<` on `datetime.date`. -/
def dateLt (a b : Date) : Bool :=
  Nat.blt a.year b.year ||
    (a.year == b.year &&
      (Nat.blt a.month b.month ||
        (a.month == b.month && Nat.blt a.day b.day)))

/-- The `.dt` payload of an icalendar date property: either a plain date
or a datetime (date plus seconds-within-day). -/
inductive ICalTime where
  | dateOnly (d : Date)
  | dateTime (d : Date) (secs : Nat)
  deriving DecidableEq, Repr

/-- `isinstance(x, datetime.datetime)` followed by `.date()`:
truncate any time component to the calendar date. -/
def ICalTime.toDate : ICalTime → Date
  | .dateOnly d => d
  | .dateTime d _ => d

/-! ## Attendees and property values -/

/-- An attendee property value (icalendar `vCalAddress`).
`params = none` models an object with no `params` attribute;
`params = some p` models `params` present with `params.get('partstat') = p`.
`ical` is the decoded `to_ical()` serialization (the address text). -/
structure Attendee where
  params : Option (Option String)
  ical : String
  deriving DecidableEq, Repr

/-- A property value stored in an event's mapping. -/
inductive Value where
  | str (s : String)
  | time (t : ICalTime)
  | attendee (a : Attendee)
  | attendeeList (l : List Attendee)
  deriving DecidableEq, Repr

/-- Decoded `to_ical()` text of a single value, used for serialization. -/
def Value.text : Value → String
  | .str s => s
  | .time (.dateOnly d) =>
    toString d.year ++ "-" ++ toString d.month ++ "-" ++ toString d.day
  | .time (.dateTime d t) =>
    toString d.year ++ "-" ++ toString d.month ++ "-" ++ toString d.day
      ++ "T" ++ toString t
  | .attendee a => a.ical
  | .attendeeList l => String.join (l.map (fun a => a.ical))

/-! ## Events as property mappings

icalendar's `Event` is a dict-like mapping of property name to value;
we embed it as an association list probed in insertion order. -/

abbrev Event := List (String × Value)

/-- Python `event[key]` returning `none` when absent (`key in event` is
`(eget e k).isSome`). -/
def eget : Event → String → Option Value
  | [], _ => none
  | (k, v) :: rest, key => if k == key then some v else eget rest key

/-- Python `key in event`. -/
def ekey (e : Event) (k : String) : Bool :=
  (eget e k).isSome

/-- Python `event[key] = v`: replace the first binding in place, or
append a fresh one. -/
def eset : Event → String → Value → Event
  | [], key, v => [(key, v)]
  | (k, w) :: rest, key, v =>
    if k == key then (k, v) :: rest else (k, w) :: eset rest key v

/-- icalendar `Component.add` on a fresh component: append the binding. -/
def eadd (e : Event) (k : String) (v : Value) : Event :=
  e ++ [(k, v)]

/-- `__copy_event`: copies data with given keys from event to a new
`Event` instance. -/
def copyEvent (event : Event) : List String → Event
  | [] => []
  | key :: keys =>
    match eget event key with
    | some v => (key, v) :: copyEvent event keys
    | none => copyEvent event keys

/-! ## MD5 (`hashlib.md5(...).hexdigest()`)

Bytes and 32-bit words are `Nat` with explicit reduction modulo `2 ^ 32`. -/

/-- UTF-8 encoding of one code point, `str.encode()`. -/
def utf8Char (n : Nat) : List Nat :=
  if n < 0x80 then [n]
  else if n < 0x800 then
    [0xC0 + n / 64, 0x80 + n % 64]
  else if n < 0x10000 then
    [0xE0 + n / 4096, 0x80 + n / 64 % 64, 0x80 + n % 64]
  else
    [0xF0 + n / 262144, 0x80 + n / 4096 % 64, 0x80 + n / 64 % 64, 0x80 + n % 64]

/-- UTF-8 encoding of a string's characters. -/
def utf8Encode : List Char → List Nat
  | [] => []
  | c :: rest => utf8Char c.toNat ++ utf8Encode rest

/-- The 64 MD5 sine-derived round constants. -/
def md5K : List Nat :=
  [0xd76aa478, 0xe8c7b756, 0x242070db, 0xc1bdceee,
   0xf57c0faf, 0x4787c62a, 0xa8304613, 0xfd469501,
   0x698098d8, 0x8b44f7af, 0xffff5bb1, 0x895cd7be,
   0x6b901122, 0xfd987193, 0xa679438e, 0x49b40821,
   0xf61e2562, 0xc040b340, 0x265e5a51, 0xe9b6c7aa,
   0xd62f105d, 0x02441453, 0xd8a1e681, 0xe7d3fbc8,
   0x21e1cde6, 0xc33707d6, 0xf4d50d87, 0x455a14ed,
   0xa9e3e905, 0xfcefa3f8, 0x676f02d9, 0x8d2a4c8a,
   0xfffa3942, 0x8771f681, 0x6d9d6122, 0xfde5380c,
   0xa4beea44, 0x4bdecfa9, 0xf6bb4b60, 0xbebfbc70,
   0x289b7ec6, 0xeaa127fa, 0xd4ef3085, 0x04881d05,
   0xd9d4d039, 0xe6db99e5, 0x1fa27cf8, 0xc4ac5665,
   0xf4292244, 0x432aff97, 0xab9423a7, 0xfc93a039,
   0x655b59c3, 0x8f0ccc92, 0xffeff47d, 0x85845dd1,
   0x6fa87e4f, 0xfe2ce6e0, 0xa3014314, 0x4e0811a1,
   0xf7537e82, 0xbd3af235, 0x2ad7d2bb, 0xeb86d391]

/-- The 64 MD5 per-round left-rotation amounts. -/
def md5S : List Nat :=
  [7, 12, 17, 22, 7, 12, 17, 22, 7, 12, 17, 22, 7, 12, 17, 22,
   5, 9, 14, 20, 5, 9, 14, 20, 5, 9, 14, 20, 5, 9, 14, 20,
   4, 11, 16, 23, 4, 11, 16, 23, 4, 11, 16, 23, 4, 11, 16, 23,
   6, 10, 15, 21, 6, 10, 15, 21, 6, 10, 15, 21, 6, 10, 15, 21]

/-- Left rotation of a 32-bit word. -/
def rotl32 (x n : Nat) : Nat :=
  x % 2 ^ (32 - n) * 2 ^ n + x / 2 ^ (32 - n)

/-- Bitwise complement of a 32-bit word. -/
def not32 (x : Nat) : Nat := 2 ^ 32 - 1 - x % 2 ^ 32

/-- The MD5 nonlinear function for round `i`. -/
def md5F (i b c d : Nat) : Nat :=
  if i < 16 then b &&& c ||| not32 b &&& d
  else if i < 32 then d &&& b ||| not32 d &&& c
  else if i < 48 then b ^^^ c ^^^ d
  else c ^^^ (b ||| not32 d)

/-- The MD5 message-word index for round `i`. -/
def md5G (i : Nat) : Nat :=
  if i < 16 then i
  else if i < 32 then (5 * i + 1) % 16
  else if i < 48 then (3 * i + 5) % 16
  else 7 * i % 16

/-- One MD5 round on state `(a, b, c, d)` with message words `m`. -/
def md5Round (m : List Nat) (i : Nat) : Nat × Nat × Nat × Nat → Nat × Nat × Nat × Nat
  | (a, b, c, d) =>
    let tmp := (a + md5F i b c d + md5K.getD i 0 + m.getD (md5G i) 0) % 2 ^ 32
    (d, (b + rotl32 tmp (md5S.getD i 0)) % 2 ^ 32, b, c)

/-- `count` MD5 rounds starting at round index `i`. -/
def md5Iter (m : List Nat) : Nat → Nat × Nat × Nat × Nat → Nat → Nat × Nat × Nat × Nat
  | _, st, 0 => st
  | i, st, count + 1 => md5Iter m (i + 1) (md5Round m i st) count

/-- Split a byte list into 16 little-endian 32-bit words. -/
def toWordsLE : List Nat → List Nat
  | b0 :: b1 :: b2 :: b3 :: rest =>
    (b0 + 256 * b1 + 65536 * b2 + 16777216 * b3) :: toWordsLE rest
  | _ => []

/-- Little-endian bytes of a 32-bit word. -/
def wordBytesLE (w : Nat) : List Nat :=
  [w % 256, w / 256 % 256, w / 65536 % 256, w / 16777216 % 256]

/-- Little-endian bytes of the 64-bit message bit length. -/
def lenBytesLE (n : Nat) : List Nat :=
  [n % 256, n / 2 ^ 8 % 256, n / 2 ^ 16 % 256, n / 2 ^ 24 % 256,
   n / 2 ^ 32 % 256, n / 2 ^ 40 % 256, n / 2 ^ 48 % 256, n / 2 ^ 56 % 256]

/-- MD5 padding: `0x80`, zeros to 56 mod 64, then the bit length. -/
def md5Pad (msg : List Nat) : List Nat :=
  msg ++ [128] ++ List.replicate ((119 - msg.length % 64) % 64) 0
    ++ lenBytesLE (msg.length * 8 % 2 ^ 64)

/-- Split a list into 64-byte chunks (`fuel` bounds the recursion). -/
def chunks64 : Nat → List Nat → List (List Nat)
  | 0, _ => []
  | _, [] => []
  | fuel + 1, l => l.take 64 :: chunks64 fuel (l.drop 64)

/-- Fold one 64-byte chunk into the MD5 state. -/
def md5Chunk (st : Nat × Nat × Nat × Nat) (chunk : List Nat) : Nat × Nat × Nat × Nat :=
  let r := md5Iter (toWordsLE chunk) 0 st 64
  ((st.1 + r.1) % 2 ^ 32, (st.2.1 + r.2.1) % 2 ^ 32,
   (st.2.2.1 + r.2.2.1) % 2 ^ 32, (st.2.2.2 + r.2.2.2) % 2 ^ 32)

/-- The four MD5 state words for a byte message. -/
def md5Words (msg : List Nat) : Nat × Nat × Nat × Nat :=
  let padded := md5Pad msg
  (chunks64 padded.length padded).foldl md5Chunk
    (0x67452301, 0xefcdab89, 0x98badcfe, 0x10325476)

/-- The 16-byte MD5 digest of a byte message. -/
def md5Digest (msg : List Nat) : List Nat :=
  let w := md5Words msg
  wordBytesLE w.1 ++ wordBytesLE w.2.1 ++ wordBytesLE w.2.2.1 ++ wordBytesLE w.2.2.2

/-- The sixteen lowercase hexadecimal digits. -/
def hexDigits : List Char := "0123456789abcdef".data

/-- Hexadecimal character for a value below 16. -/
def hexChar (n : Nat) : Char := hexDigits.getD n '0'

/-- Two-digit lowercase hex rendering of each byte, `%02x`. -/
def bytesHex : List Nat → List Char
  | [] => []
  | b :: rest => hexChar (b / 16) :: hexChar (b % 16) :: bytesHex rest

/-- `md5(s.encode()).hexdigest()`. -/
def md5hex (s : String) : String :=
  String.mk (bytesHex (md5Digest (utf8Encode s.data)))

/-! ## Serialization

Modelled from the spec: the icalendar library's `to_ical` serializer is
an external collaborator; the spec only requires a line-oriented,
colon-delimited property rendering inside BEGIN/END markers. -/

/-- Modelled from the spec: property lines of an event as rendered by
the external icalendar serializer. -/
def serializeProps : Event → String
  | [] => ""
  | (k, v) :: rest => strUpper k ++ ":" ++ v.text ++ "\r\n" ++ serializeProps rest

/-- Modelled from the spec: `Event.to_ical().decode()` of the external
icalendar library, used by `__generate_uid` as the hash base when the
event has no uid. -/
def serializeEvent (e : Event) : String :=
  "BEGIN:VEVENT\r\n" ++ serializeProps e ++ "END:VEVENT\r\n"

/-! ## `__generate_uid` -/

/-- The string hashed by `__generate_uid`: the uid if present, else the
whole serialized event. -/
def uidBase (component : Event) : String :=
  match eget component "uid" with
  | some v => v.text
  | none => serializeEvent component

/-- `__generate_uid`: obfuscates the `uid` property of the event by
hashing the uid (or, absent one, the whole event) and appending the
domain. -/
def generateUid (component : Event) (domain : String) : String :=
  md5hex (uidBase component) ++ "@" ++ domain

/-! ## `__should_skip_event` -/

/-- `__should_skip_event`: determines if the event should be skipped.
A `none` cutoff is Python's falsy `None`; the catch-all date branch is
unreachable for parsed events, whose date properties are `Value.time`. -/
def shouldSkipEvent (component : Event) (skipEventsBefore : Option Date) : Bool :=
  match skipEventsBefore with
  | none => false
  | some cutoff =>
    if (ekey component "dtend" || ekey component "dtstart") && !ekey component "rrule" then
      match (if ekey component "dtend" then eget component "dtend" else eget component "dtstart") with
      | some (.time t) => dateLt t.toDate cutoff
      | _ => false
    else false

/-! ## `__determine_status` -/

/-- Python's `attendees = x if isinstance(x, list) else [x]`; a value of
any non-attendee type would be wrapped but then dropped by the
`hasattr(a, 'params')` guard, so it contributes no attendee. -/
def attendeesOf : Value → List Attendee
  | .attendee a => [a]
  | .attendeeList l => l
  | _ => []

/-- The list-comprehension of `__determine_status`: the `partstat`
parameter of each attendee that has a `params` attribute and whose
serialized form (newlines removed) contains some known email. -/
def partstatsOf (attendees : List Attendee) (knownEmails : List String) : List (Option String) :=
  attendees.filterMap fun a =>
    match a.params with
    | none => none
    | some ps =>
      if knownEmails.any (fun email => strContains (removeNl a.ical) email) then some ps
      else none

/-- The final line of `__determine_status`:
`component['status'] if 'status' in component else 'CONFIRMED'`. -/
def storedStatus (component : Event) : String :=
  match eget component "status" with
  | some v => v.text
  | none => "CONFIRMED"

/-- `__determine_status`: determines the correct status for the new
event. -/
def determineStatus (component : Event) (knownEmails : List String) : String :=
  match eget component "attendee" with
  | none => storedStatus component
  | some av =>
    if knownEmails.isEmpty then storedStatus component
    else
      let partstats := partstatsOf (attendeesOf av) knownEmails
      if partstats.contains (some "ACCEPTED") then "CONFIRMED"
      else if partstats.contains (some "DECLINED") then "CANCELLED"
      else if partstats.contains (some "TENTATIVE") || partstats.contains (some "NEEDS-ACTION") then "TENTATIVE"
      else storedStatus component

/-! ## The Event branch of `__process_calendar_data` -/

/-- The allow-list of keys passed to `__copy_event`. -/
def copiedKeys : List String :=
  ["dtstart", "dtend", "dtstamp", "rrule", "status", "summary",
   "transp", "sequence", "recurrence-id"]

/-- The projection applied to one event inside
`__process_calendar_data`: copy the allow-listed fields, overwrite the
uid, the summary when the placeholder is truthy, and the status, then
apply the optional event mapper. -/
def projectEvent (component : Event) (calendarDomain : String)
    (busyPlaceHolder : Option String) (knownEmails : List String)
    (eventMapper : Option (Event → Event → Event)) : Event :=
  let event := copyEvent component copiedKeys
  let event := eset event "uid" (.str (generateUid component calendarDomain))
  -- `if busy_place_holder:` — Python truthiness, so None and '' both skip
  let event :=
    match busyPlaceHolder with
    | some p => if p == "" then event else eset event "summary" (.str p)
    | none => event
  let event := eset event "status" (.str (determineStatus component knownEmails))
  match eventMapper with
  | some f => f event component
  | none => event

/-! ## Calendar components and the parser

Modelled from the spec: the Calendar Parser is the external icalendar
library's `Calendar.from_ical`. Per the spec it returns an ordered
sequence of components — timezone definitions, events, or other blocks —
or fails with a parse error on text that does not conform to the
grammar (missing BEGIN/END markers, unterminated blocks, malformed
property lines). -/

/-- The error surfaced by fallible pipeline stages. -/
inductive MergeError where
  | parseError (msg : String)
  deriving DecidableEq, Repr

/-- A parsed calendar subcomponent: a timezone definition (passed
through verbatim as its content lines), an event, or any other block. -/
inductive Component where
  | timezone (content : List String)
  | event (e : Event)
  | other (name : String) (content : List String)
  deriving DecidableEq, Repr

/-- Numeric value of a decimal digit character. -/
def digitVal (c : Char) : Option Nat :=
  if '0' ≤ c && c ≤ '9' then some (c.toNat - 48) else none

/-- Decimal number from a digit string. -/
def natOfDigits (acc : Nat) : List Char → Option Nat
  | [] => some acc
  | c :: rest =>
    match digitVal c with
    | some d => natOfDigits (acc * 10 + d) rest
    | none => none

/-- Modelled from the spec: parse of an iCalendar DATE (`YYYYMMDD`) or
DATE-TIME (`YYYYMMDDTHHMMSS` with optional `Z`) property value. -/
def parseICalTime (s : String) : Option ICalTime :=
  match s.data with
  | y1 :: y2 :: y3 :: y4 :: m1 :: m2 :: d1 :: d2 :: rest =>
    (natOfDigits 0 [y1, y2, y3, y4]).bind fun year =>
    (natOfDigits 0 [m1, m2]).bind fun month =>
    (natOfDigits 0 [d1, d2]).bind fun day =>
    match rest with
    | [] => some (.dateOnly ⟨year, month, day⟩)
    | 'T' :: h1 :: h2 :: mi1 :: mi2 :: s1 :: s2 :: tz =>
      if tz.isEmpty || tz == ['Z'] then
        (natOfDigits 0 [h1, h2]).bind fun hh =>
        (natOfDigits 0 [mi1, mi2]).bind fun mm =>
        (natOfDigits 0 [s1, s2]).bind fun ss =>
        some (.dateTime ⟨year, month, day⟩ (hh * 3600 + mm * 60 + ss))
      else none
    | _ => none
  | _ => none

/-- Split a property line at its first colon. -/
def splitProp : List Char → Option (List Char × List Char)
  | [] => none
  | c :: rest =>
    if c == ':' then some ([], rest)
    else (splitProp rest).map fun p => (c :: p.1, p.2)

/-- The `PARTSTAT` parameter value among a property's parameters. -/
def paramPartstat (params : List (List Char)) : Option String :=
  params.findSome? fun p =>
    if listPref "PARTSTAT=".data p then some (String.mk (p.drop 9)) else none

/-- icalendar's `add` for a repeatable `attendee` property: a second
value turns the binding into a list, later ones append to it. -/
def addAttendee (ev : Event) (att : Attendee) : Event :=
  match eget ev "attendee" with
  | none => eadd ev "attendee" (.attendee att)
  | some (.attendee a) => eset ev "attendee" (.attendeeList [a, att])
  | some (.attendeeList l) => eset ev "attendee" (.attendeeList (l ++ [att]))
  | some _ => ev

/-- Modelled from the spec: parse the property lines of a VEVENT block
into an event mapping; a line without a colon or with a malformed date
value is a parse failure. -/
def parseEventLines : List (List Char) → Event → Except MergeError Event
  | [], ev => .ok ev
  | line :: rest, ev =>
    match splitProp line with
    | none => .error (.parseError "malformed property line")
    | some (keyPart, value) =>
      let name := strLower (String.mk (keyPart.takeWhile fun c => !(c == ';')))
      let params := splitCh ';' ((keyPart.dropWhile fun c => !(c == ';')).drop 1)
      if name == "attendee" then
        parseEventLines rest
          (addAttendee ev { params := some (paramPartstat params), ical := String.mk value })
      else if name == "dtstart" || name == "dtend" then
        match parseICalTime (String.mk value) with
        | some t => parseEventLines rest (eadd ev name (.time t))
        | none => .error (.parseError "malformed date value")
      else
        parseEventLines rest (eadd ev name (.str (String.mk value)))

/-- Scan up to the matching END line of a block; `none` means the block
is unterminated. -/
def takeUntilEnd (endLine : List Char) : List (List Char) → Option (List (List Char) × List (List Char))
  | [] => none
  | l :: rest =>
    if l == endLine then some ([], rest)
    else (takeUntilEnd endLine rest).map fun p => (l :: p.1, p.2)

/-- Modelled from the spec: parse the body of a VCALENDAR into its
ordered subcomponents (`fuel` bounds the recursion; it is called with
more fuel than lines, so exhaustion is unreachable). -/
def parseComponents : Nat → List (List Char) → Except MergeError (List Component)
  | 0, _ => .error (.parseError "fuel exhausted")
  | _, [] => .ok []
  | fuel + 1, line :: rest =>
    if listPref "BEGIN:".data line then
      let name := line.drop 6
      match takeUntilEnd ("END:".data ++ name) rest with
      | none => .error (.parseError "unterminated component")
      | some (content, remaining) => do
        let comp ←
          if name == "VTIMEZONE".data then
            pure (Component.timezone (content.map String.mk))
          else if name == "VEVENT".data then
            (parseEventLines content []).map Component.event
          else
            pure (Component.other (String.mk name) (content.map String.mk))
        let comps ← parseComponents fuel remaining
        pure (comp :: comps)
    else if line.contains ':' then
      -- a calendar-level property (VERSION, PRODID, ...) is kept on the
      -- calendar object, not among the subcomponents
      parseComponents fuel rest
    else .error (.parseError "malformed line")

/-- Modelled from the spec: `Calendar().from_ical(calendar_data)` —
ordered subcomponents, or a parse error on nonconforming text. -/
def parseCalendar (text : String) : Except MergeError (List Component) :=
  let lines := ((splitCh '\n' text.data).map fun l =>
    l.filter fun c => !(c == '\r')).filter fun l => !l.isEmpty
  match lines with
  | [] => .error (.parseError "empty document")
  | first :: rest =>
    if first == "BEGIN:VCALENDAR".data then
      match takeUntilEnd "END:VCALENDAR".data rest with
      | none => .error (.parseError "missing END:VCALENDAR")
      | some (content, remaining) =>
        if remaining.isEmpty then parseComponents (content.length + 1) content
        else .error (.parseError "data after END:VCALENDAR")
    else .error (.parseError "missing BEGIN:VCALENDAR")

/-! ## `__process_calendar_data` -/

/-- The subcomponent loop of `__process_calendar_data`: timezones pass
through, events are filtered then projected, anything else is dropped
(it matches neither `isinstance` check). -/
def processComponents (comps : List Component) (calendarDomain : String)
    (knownEmails : List String) (skipEventsBefore : Option Date)
    (busyPlaceHolder : Option String)
    (eventMapper : Option (Event → Event → Event)) : List Component :=
  match comps with
  | [] => []
  | .timezone tz :: rest =>
    .timezone tz ::
      processComponents rest calendarDomain knownEmails skipEventsBefore busyPlaceHolder eventMapper
  | .event e :: rest =>
    if shouldSkipEvent e skipEventsBefore then
      processComponents rest calendarDomain knownEmails skipEventsBefore busyPlaceHolder eventMapper
    else
      .event (projectEvent e calendarDomain busyPlaceHolder knownEmails eventMapper) ::
        processComponents rest calendarDomain knownEmails skipEventsBefore busyPlaceHolder eventMapper
  | .other _ _ :: rest =>
    processComponents rest calendarDomain knownEmails skipEventsBefore busyPlaceHolder eventMapper

/-- `__process_calendar_data`: parse the raw text, then filter and
project its components. The parse failure is not caught here nor in
the caller. -/
def processCalendarData (calendarData : String) (calendarDomain : String)
    (knownEmails : List String) (skipEventsBefore : Option Date)
    (busyPlaceHolder : Option String)
    (eventMapper : Option (Event → Event → Event)) : Except MergeError (List Component) :=
  (parseCalendar calendarData).map fun comps =>
    processComponents comps calendarDomain knownEmails skipEventsBefore busyPlaceHolder eventMapper

/-! ## `__get_calendar_data` and `merge_calendars` -/

/-- The external world seen by `__get_calendar_data`: filesystem reads
and HTTP requests, each able to fail (Python raising an exception). -/
structure FetchEnv where
  readFile : String → Except Unit String
  httpGet : String → Except Unit String

/-- `__get_calendar_data`: dispatch on the scheme; any raised error is
caught and converted to `none`, and an unrecognized scheme falls
through to `none`. -/
def getCalendarData (env : FetchEnv) (calendarData : String) : Option String :=
  if strStarts calendarData "file://" then
    (env.readFile (strDrop calendarData 7)).toOption
  else if strStarts calendarData "http" || strStarts calendarData "webcal://" then
    let url :=
      if strStarts calendarData "webcal://" then strReplace calendarData "webcal" "http"
      else calendarData
    (env.httpGet url).toOption
  else if strStarts calendarData "data://" then
    some (strDrop calendarData 7)
  else none

/-- The source loop of `merge_calendars`, accumulating the components
of every source whose fetch produced truthy text. A parse failure
inside `__process_calendar_data` is uncaught and aborts the loop. -/
def mergeComponents (env : FetchEnv) (calendarData : List (String × Bool))
    (knownEmails : List String) (busyPlaceholder : String)
    (calendarDomain : String) (skipEventsBefore : Option Date) : Except MergeError (List Component) :=
  match calendarData with
  | [] => .ok []
  | (url, anonymize) :: rest =>
    match getCalendarData env url with
    | none =>
      mergeComponents env rest knownEmails busyPlaceholder calendarDomain skipEventsBefore
    | some text =>
      -- `if not calendar_data: continue` — None and '' are both falsy
      if text == "" then
        mergeComponents env rest knownEmails busyPlaceholder calendarDomain skipEventsBefore
      else do
        let components ← processCalendarData text calendarDomain knownEmails skipEventsBefore
          (if anonymize then some busyPlaceholder else none) none
        let more ← mergeComponents env rest knownEmails busyPlaceholder calendarDomain skipEventsBefore
        pure (components ++ more)

/-- Modelled from the spec: the external icalendar serializer for one
component. -/
def serializeComponent : Component → String
  | .timezone lines =>
    "BEGIN:VTIMEZONE\r\n" ++ String.join (lines.map fun l => l ++ "\r\n") ++ "END:VTIMEZONE\r\n"
  | .event e => serializeEvent e
  | .other name lines =>
    "BEGIN:" ++ name ++ "\r\n" ++ String.join (lines.map fun l => l ++ "\r\n")
      ++ "END:" ++ name ++ "\r\n"

/-- Modelled from the spec: `Calendar.to_ical().decode()` — the
envelope with product id, version 2.0 and the accumulated components. -/
def serializeCalendar (prodid : String) (comps : List Component) : String :=
  "BEGIN:VCALENDAR\r\nPRODID:" ++ prodid ++ "\r\nVERSION:2.0\r\n"
    ++ String.join (comps.map serializeComponent) ++ "END:VCALENDAR\r\n"

/-- `merge_calendars`: takes calendar sources, downloads them, merges
them and serializes the result. The only fallible stage not caught in
the source is the parse, so the result is an `Except`. -/
def mergeCalendars (env : FetchEnv) (calendarData : List (String × Bool))
    (knownEmails : Option (List String)) (calendarName : String)
    (busyPlaceholder : String) (calendarDomain : String)
    (skipEventsBefore : Option Date) : Except MergeError String :=
  (mergeComponents env calendarData (knownEmails.getD []) busyPlaceholder
    calendarDomain skipEventsBefore).map (serializeCalendar calendarName)

/-! ## Claim-side definitions

These restate parts of the spec in its own words, to be compared with
the source-translated definitions above. -/

/-- The participation status an attendee carries, if any. -/
def attendeePartstat (a : Attendee) : Option String :=
  a.params.bind id

/-- Whether an attendee's serialized form contains some known email as
a substring. -/
def attendeeMatches (a : Attendee) (knownEmails : List String) : Bool :=
  knownEmails.any fun email => strContains (removeNl a.ical) email

/-- Stated from the spec's words: the participation statuses collected
by the Status Resolver — those of attendees whose serialized form
contains some known email as a substring. -/
def collectedStatuses (e : Event) (knownEmails : List String) : List String :=
  (attendeesOf ((eget e "attendee").getD (.str ""))).filterMap fun a =>
    if attendeeMatches a knownEmails then attendeePartstat a else none

/-- A fetch environment in which every filesystem read and every HTTP
request fails; `data://` sources still work. -/
def failEnv : FetchEnv :=
  { readFile := fun _ => .error (), httpGet := fun _ => .error () }

/-- A minimal well-formed calendar text with one timezone component. -/
def icsTz : String :=
  "BEGIN:VCALENDAR\nBEGIN:VTIMEZONE\nTZID:Europe/Prague\nEND:VTIMEZONE\nEND:VCALENDAR"

end Camerge

namespace Camerge

/-! ## Helper lemmas about event mappings -/

theorem eget_eset_self (e : Event) (k : String) (v : Value) :
    eget (eset e k v) k = some v := by
  induction e with
  | nil => simp [eset, eget]
  | cons hd tl ih =>
    obtain ⟨k1, w⟩ := hd
    by_cases h : k1 = k
    · simp [eset, eget, h]
    · simp [eset, eget, h, ih]

theorem eget_eset_ne (e : Event) (k key : String) (v : Value) (h : ¬key = k) :
    eget (eset e key v) k = eget e k := by
  induction e with
  | nil => simp [eset, eget, h]
  | cons hd tl ih =>
    obtain ⟨k1, w⟩ := hd
    by_cases h1 : k1 = key
    · subst h1
      simp [eset, eget, h]
    · simp [eset, eget, h1, ih]

theorem eget_copyEvent_not_mem (e : Event) (keys : List String) (k : String)
    (h : k ∉ keys) : eget (copyEvent e keys) k = none := by
  induction keys with
  | nil => simp [copyEvent, eget]
  | cons key rest ih =>
    have hk : ¬key = k := fun he => h (he ▸ List.mem_cons_self key rest)
    have hr : k ∉ rest := fun hm => h (List.mem_cons_of_mem key hm)
    simp only [copyEvent]
    cases eget e key with
    | none => exact ih hr
    | some v => simp [eget, hk, ih hr]

theorem eget_copyEvent_mem (e : Event) (keys : List String) (k : String)
    (hn : keys.Nodup) (h : k ∈ keys) : eget (copyEvent e keys) k = eget e k := by
  induction keys with
  | nil => cases h
  | cons key rest ih =>
    simp only [List.nodup_cons] at hn
    by_cases hk : key = k
    · subst hk
      simp only [copyEvent]
      cases he : eget e key with
      | none => rw [eget_copyEvent_not_mem _ _ _ hn.1]
      | some v => simp [eget]
    · have hr : k ∈ rest := by
        rcases List.mem_cons.mp h with h1 | h1
        · exact absurd h1.symm hk
        · exact h1
      simp only [copyEvent]
      cases eget e key with
      | none => exact ih hn.2 hr
      | some v => simp [eget, hk, ih hn.2 hr]

/-- Unfolding of the projector when no placeholder is passed. -/
theorem projectEvent_none (e : Event) (d : String) (ke : List String) :
    projectEvent e d none ke none =
      eset (eset (copyEvent e copiedKeys) "uid" (.str (generateUid e d)))
        "status" (.str (determineStatus e ke)) := rfl

/-- Unfolding of the projector when a placeholder is passed. -/
theorem projectEvent_some (e : Event) (d : String) (s : String) (ke : List String) :
    projectEvent e d (some s) ke none =
      eset
        (if (s == "") = true
          then eset (copyEvent e copiedKeys) "uid" (.str (generateUid e d))
          else eset (eset (copyEvent e copiedKeys) "uid" (.str (generateUid e d)))
            "summary" (.str s))
        "status" (.str (determineStatus e ke)) := rfl

/-- The projected event with an empty-string placeholder is the
projected event with no placeholder at all: `if busy_place_holder:`
tests Python truthiness. -/
theorem projectEvent_empty_placeholder (e : Event) (d : String) (ke : List String)
    (m : Option (Event → Event → Event)) :
    projectEvent e d (some "") ke m = projectEvent e d none ke m := rfl

/-! ## C7 -/

/-- C7: the merged output never contains original attendee data: the
attendee field is not among the copied fields, and no projected event
carries an attendee property. -/
theorem attendee_never_in_output :
    "attendee" ∉ copiedKeys ∧
      ∀ (e : Event) (d : String) (p : Option String) (ke : List String),
        eget (projectEvent e d p ke none) "attendee" = none := by
  refine ⟨by decide, fun e d p ke => ?_⟩
  cases p with
  | none =>
    rw [projectEvent_none, eget_eset_ne _ _ _ _ (by decide),
      eget_eset_ne _ _ _ _ (by decide),
      eget_copyEvent_not_mem _ _ _ (by decide)]
  | some s =>
    rw [projectEvent_some, eget_eset_ne _ _ _ _ (by decide)]
    by_cases hs : (s == "") = true
    · rw [if_pos hs, eget_eset_ne _ _ _ _ (by decide),
        eget_copyEvent_not_mem _ _ _ (by decide)]
    · rw [if_neg hs, eget_eset_ne _ _ _ _ (by decide),
        eget_eset_ne _ _ _ _ (by decide),
        eget_copyEvent_not_mem _ _ _ (by decide)]

/-! ## C10 -/

/-- C10: when the busy placeholder is the empty string, no summary
replacement occurs even with the anonymize flag set: the projector
tests Python truthiness, so a falsy placeholder disables anonymization
and the original summary is preserved. -/
theorem empty_placeholder_keeps_summary :
    (∀ (e : Event) (d : String) (ke : List String),
      eget (projectEvent e d (some "") ke none) "summary" = eget e "summary") ∧
      ∀ (comps : List Component) (d : String) (ke : List String) (cutoff : Option Date),
        processComponents comps d ke cutoff (some "") none =
          processComponents comps d ke cutoff none none := by
  constructor
  · intro e d ke
    rw [projectEvent_empty_placeholder, projectEvent_none,
      eget_eset_ne _ _ _ _ (by decide), eget_eset_ne _ _ _ _ (by decide),
      eget_copyEvent_mem _ _ _ (by decide) (by decide)]
  · intro comps d ke cutoff
    induction comps with
    | nil => rfl
    | cons c rest ih =>
      cases c with
      | timezone tz => simp only [processComponents, ih]
      | event e =>
        simp only [processComponents, ih, projectEvent_empty_placeholder]
      | other n content => simp only [processComponents, ih]

/-! ## C5 -/

/-- C5 (amended): only the allow-listed fields are copied verbatim;
the unique id is overwritten with the Obfuscator's output; the summary
is overwritten exactly when the placeholder is non-null and non-empty,
and is otherwise the copied one; the status is overwritten with the
Status Resolver's output. -/
theorem project_event_fields (e : Event) (d : String) (p : Option String) (ke : List String) :
    (∀ k, k ∉ copiedKeys → ¬k = "uid" → eget (projectEvent e d p ke none) k = none) ∧
    (∀ k, k ∈ copiedKeys → ¬k = "summary" → ¬k = "status" →
      eget (projectEvent e d p ke none) k = eget e k) ∧
    eget (projectEvent e d p ke none) "uid" = some (.str (generateUid e d)) ∧
    eget (projectEvent e d p ke none) "summary" =
      (match p with
        | some s => if s = "" then eget e "summary" else some (.str s)
        | none => eget e "summary") ∧
    eget (projectEvent e d p ke none) "status" = some (.str (determineStatus e ke)) := by
  refine ⟨?_, ?_, ?_, ?_, ?_⟩
  · intro k hk hu
    have hsum : ¬k = "summary" := fun h => hk (by rw [h]; decide)
    have hst : ¬k = "status" := fun h => hk (by rw [h]; decide)
    cases p with
    | none =>
      rw [projectEvent_none, eget_eset_ne _ _ _ _ (fun h => hst h.symm),
        eget_eset_ne _ _ _ _ (fun h => hu h.symm), eget_copyEvent_not_mem _ _ _ hk]
    | some s =>
      rw [projectEvent_some, eget_eset_ne _ _ _ _ (fun h => hst h.symm)]
      by_cases hs : (s == "") = true
      · rw [if_pos hs, eget_eset_ne _ _ _ _ (fun h => hu h.symm),
          eget_copyEvent_not_mem _ _ _ hk]
      · rw [if_neg hs, eget_eset_ne _ _ _ _ (fun h => hsum h.symm),
          eget_eset_ne _ _ _ _ (fun h => hu h.symm), eget_copyEvent_not_mem _ _ _ hk]
  · intro k hk hsum hst
    have hu : ¬k = "uid" := fun h => absurd (h ▸ hk) (by decide)
    cases p with
    | none =>
      rw [projectEvent_none, eget_eset_ne _ _ _ _ (fun h => hst h.symm),
        eget_eset_ne _ _ _ _ (fun h => hu h.symm),
        eget_copyEvent_mem _ _ _ (by decide) hk]
    | some s =>
      rw [projectEvent_some, eget_eset_ne _ _ _ _ (fun h => hst h.symm)]
      by_cases hs : (s == "") = true
      · rw [if_pos hs, eget_eset_ne _ _ _ _ (fun h => hu h.symm),
          eget_copyEvent_mem _ _ _ (by decide) hk]
      · rw [if_neg hs, eget_eset_ne _ _ _ _ (fun h => hsum h.symm),
          eget_eset_ne _ _ _ _ (fun h => hu h.symm),
          eget_copyEvent_mem _ _ _ (by decide) hk]
  · cases p with
    | none =>
      rw [projectEvent_none, eget_eset_ne _ _ _ _ (by decide), eget_eset_self]
    | some s =>
      rw [projectEvent_some, eget_eset_ne _ _ _ _ (by decide)]
      by_cases hs : (s == "") = true
      · rw [if_pos hs, eget_eset_self]
      · rw [if_neg hs, eget_eset_ne _ _ _ _ (by decide), eget_eset_self]
  · cases p with
    | none =>
      rw [projectEvent_none, eget_eset_ne _ _ _ _ (by decide),
        eget_eset_ne _ _ _ _ (by decide),
        eget_copyEvent_mem _ _ _ (by decide) (by decide)]
    | some s =>
      rw [projectEvent_some, eget_eset_ne _ _ _ _ (by decide)]
      by_cases hs : s = ""
      · subst hs
        rw [if_pos (by decide), eget_eset_ne _ _ _ _ (by decide),
          eget_copyEvent_mem _ _ _ (by decide) (by decide)]
        show eget e "summary" = if ("" : String) = "" then eget e "summary" else some (Value.str "")
        rw [if_pos rfl]
      · rw [if_neg (by simp [hs]), eget_eset_self]
        show some (Value.str s) = if s = "" then eget e "summary" else some (Value.str s)
        rw [if_neg hs]
  · cases p with
    | none => rw [projectEvent_none, eget_eset_self]
    | some s => rw [projectEvent_some, eget_eset_self]

/-- C5 witness: the field characterization applied to a concrete event
with a concrete non-empty placeholder. -/
theorem project_event_fields_witness :
    eget (projectEvent [("summary", Value.str "meeting")] "camerge" (some "busy") [] none)
        "attendee" = none ∧
      eget (projectEvent [("summary", Value.str "meeting")] "camerge" (some "busy") [] none)
        "dtstart" = eget [("summary", Value.str "meeting")] "dtstart" :=
  ⟨(project_event_fields [("summary", Value.str "meeting")] "camerge" (some "busy") []).1
      "attendee" (by decide) (by decide),
    (project_event_fields [("summary", Value.str "meeting")] "camerge" (some "busy") []).2.1
      "dtstart" (by decide) (by decide) (by decide)⟩

/-- C5 counterexample: a non-null but empty placeholder does not
overwrite the summary — the original text survives, refuting the claim
that every non-null placeholder replaces it. -/
theorem project_event_empty_placeholder_counterexample :
    eget (projectEvent [("summary", Value.str "meeting")] "camerge" (some "") [] none)
        "summary" = some (Value.str "meeting") ∧
      ¬eget (projectEvent [("summary", Value.str "meeting")] "camerge" (some "") [] none)
        "summary" = some (Value.str "") := by
  constructor
  · decide
  · decide

/-! ## C1 -/

/-- The code's candidate list — `partstat` parameters, `None` included,
of attendees with a `params` attribute matching a known email — holds
`some s` exactly when the spec's collection of participation statuses
holds `s`. -/
theorem partstats_contains (l : List Attendee) (ke : List String) (s : String) :
    (partstatsOf l ke).contains (some s) = true ↔
      s ∈ l.filterMap fun a =>
        if attendeeMatches a ke then attendeePartstat a else none := by
  rw [List.elem_iff]
  induction l with
  | nil => simp [partstatsOf]
  | cons a rest ih =>
    cases hp : a.params with
    | none =>
      have h1 : partstatsOf (a :: rest) ke = partstatsOf rest ke := by
        simp [partstatsOf, List.filterMap_cons, hp]
      have h2 : ((a :: rest).filterMap fun a =>
          if attendeeMatches a ke then attendeePartstat a else none) =
          rest.filterMap fun a =>
            if attendeeMatches a ke then attendeePartstat a else none := by
        simp [List.filterMap_cons, attendeePartstat, hp]
      rw [h1, h2]
      exact ih
    | some ps =>
      by_cases hm : attendeeMatches a ke = true
      · have hm2 : (ke.any fun email => strContains (removeNl a.ical) email) = true := hm
        cases ps with
        | none =>
          have h1 : partstatsOf (a :: rest) ke = none :: partstatsOf rest ke := by
            simp only [partstatsOf, List.filterMap_cons, hp]
            rw [if_pos hm2]
          have h2 : ((a :: rest).filterMap fun a =>
              if attendeeMatches a ke then attendeePartstat a else none) =
              rest.filterMap fun a =>
                if attendeeMatches a ke then attendeePartstat a else none := by
            simp [List.filterMap_cons, attendeePartstat, hp, hm]
          rw [h1, h2]
          simpa using ih
        | some x =>
          have h1 : partstatsOf (a :: rest) ke = some x :: partstatsOf rest ke := by
            simp only [partstatsOf, List.filterMap_cons, hp]
            rw [if_pos hm2]
          have h2 : ((a :: rest).filterMap fun a =>
              if attendeeMatches a ke then attendeePartstat a else none) =
              x :: rest.filterMap fun a =>
                if attendeeMatches a ke then attendeePartstat a else none := by
            simp [List.filterMap_cons, attendeePartstat, hp, hm]
          rw [h1, h2]
          simp only [List.mem_cons, Option.some.injEq]
          exact or_congr Iff.rfl ih
      · have hm2 : ¬(ke.any fun email => strContains (removeNl a.ical) email) = true := hm
        have h1 : partstatsOf (a :: rest) ke = partstatsOf rest ke := by
          simp only [partstatsOf, List.filterMap_cons, hp]
          rw [if_neg hm2]
        have h2 : ((a :: rest).filterMap fun a =>
            if attendeeMatches a ke then attendeePartstat a else none) =
            rest.filterMap fun a =>
              if attendeeMatches a ke then attendeePartstat a else none := by
          simp [List.filterMap_cons, hm]
        rw [h1, h2]
        exact ih

/-- C1: for an event with an attendee field and a non-empty known-email
set, `__determine_status` resolves, first match wins, `ACCEPTED` to
`CONFIRMED`, else `DECLINED` to `CANCELLED`, else `TENTATIVE` or
`NEEDS-ACTION` to `TENTATIVE`, else the stored status (default
`CONFIRMED`), over the statuses of attendees matching a known email;
in particular a known attendee's `ACCEPTED` yields `CONFIRMED` even
when an unknown attendee declined. -/
theorem determine_status_spec (e : Event) (ke : List String)
    (h1 : ekey e "attendee" = true) (h2 : ¬ke = []) :
    determineStatus e ke =
      (if "ACCEPTED" ∈ collectedStatuses e ke then "CONFIRMED"
       else if "DECLINED" ∈ collectedStatuses e ke then "CANCELLED"
       else if "TENTATIVE" ∈ collectedStatuses e ke ∨ "NEEDS-ACTION" ∈ collectedStatuses e ke then
         "TENTATIVE"
       else storedStatus e) ∧
      ((∃ a ∈ attendeesOf ((eget e "attendee").getD (.str "")),
          attendeeMatches a ke = true ∧ attendeePartstat a = some "ACCEPTED") →
        determineStatus e ke = "CONFIRMED") := by
  obtain ⟨av, hav⟩ := Option.isSome_iff_exists.mp h1
  have hne : ¬ke.isEmpty = true := by simp [h2]
  have hmain : determineStatus e ke =
      (if "ACCEPTED" ∈ collectedStatuses e ke then "CONFIRMED"
       else if "DECLINED" ∈ collectedStatuses e ke then "CANCELLED"
       else if "TENTATIVE" ∈ collectedStatuses e ke ∨ "NEEDS-ACTION" ∈ collectedStatuses e ke then
         "TENTATIVE"
       else storedStatus e) := by
    simp only [determineStatus, collectedStatuses, hav, Option.getD_some, if_neg hne,
      Bool.or_eq_true, partstats_contains]
  refine ⟨hmain, fun hex => ?_⟩
  obtain ⟨a, ha, hm, hps⟩ := hex
  have hmem : "ACCEPTED" ∈ collectedStatuses e ke := by
    simp only [collectedStatuses]
    exact List.mem_filterMap.mpr ⟨a, ha, by rw [if_pos hm, hps]⟩
  rw [hmain, if_pos hmem]

/-- C1 witness: a known attendee accepted and an unknown attendee
declined — the resolved status is `CONFIRMED`. -/
theorem determine_status_spec_witness :
    determineStatus
        [("attendee", Value.attendeeList
          [⟨some (some "ACCEPTED"), "mailto:confirmed@example.com"⟩,
           ⟨some (some "DECLINED"), "mailto:other@example.com"⟩])]
        ["confirmed@example.com"] = "CONFIRMED" :=
  (determine_status_spec
      [("attendee", Value.attendeeList
        [⟨some (some "ACCEPTED"), "mailto:confirmed@example.com"⟩,
         ⟨some (some "DECLINED"), "mailto:other@example.com"⟩])]
      ["confirmed@example.com"] (by decide) (by decide)).2
    ⟨⟨some (some "ACCEPTED"), "mailto:confirmed@example.com"⟩,
      by decide, by decide, by decide⟩

/-! ## C3 -/

/-- C3: the event filter never skips without a cutoff, without both
date fields, or with a recurrence rule; otherwise it compares the end
date (else the start date), truncated to a calendar date, strictly
against the cutoff. -/
theorem should_skip_event_spec (e : Event) (c : Date) :
    shouldSkipEvent e none = false ∧
      (eget e "dtend" = none → eget e "dtstart" = none →
        shouldSkipEvent e (some c) = false) ∧
      (ekey e "rrule" = true → shouldSkipEvent e (some c) = false) ∧
      (∀ t, eget e "dtend" = some (.time t) → ekey e "rrule" = false →
        shouldSkipEvent e (some c) = dateLt t.toDate c) ∧
      (∀ t, eget e "dtend" = none → eget e "dtstart" = some (.time t) →
        ekey e "rrule" = false → shouldSkipEvent e (some c) = dateLt t.toDate c) := by
  refine ⟨rfl, ?_, ?_, ?_, ?_⟩
  · intro h1 h2
    simp [shouldSkipEvent, ekey, h1, h2]
  · intro hr
    simp [shouldSkipEvent, hr]
  · intro t hd hr
    have hkey : ekey e "dtend" = true := by simp [ekey, hd]
    simp [shouldSkipEvent, hkey, hr, hd]
  · intro t hd hs hr
    have hkey : ekey e "dtend" = false := by simp [ekey, hd]
    have hkey2 : ekey e "dtstart" = true := by simp [ekey, hs]
    simp [shouldSkipEvent, hkey, hkey2, hr, hd, hs]

/-- C3 witness: a concrete event ending before the cutoff, with a time
component to truncate, is skipped. -/
theorem should_skip_event_spec_witness :
    shouldSkipEvent [("dtend", Value.time (.dateTime ⟨2021, 5, 3⟩ 60))]
        (some ⟨2022, 1, 1⟩) =
      dateLt (ICalTime.dateTime ⟨2021, 5, 3⟩ 60).toDate ⟨2022, 1, 1⟩ :=
  (should_skip_event_spec [("dtend", Value.time (.dateTime ⟨2021, 5, 3⟩ 60))]
      ⟨2022, 1, 1⟩).2.2.2.1 (.dateTime ⟨2021, 5, 3⟩ 60) (by decide) (by decide)

/-! ## C2 -/

theorem bytesHex_length (bs : List Nat) : (bytesHex bs).length = 2 * bs.length := by
  induction bs with
  | nil => rfl
  | cons b rest ih =>
    simp only [bytesHex, List.length_cons, ih]
    omega

theorem md5Digest_length (m : List Nat) : (md5Digest m).length = 16 := by
  simp [md5Digest, wordBytesLE]

theorem hexChar_mem (n : Nat) : hexChar n ∈ hexDigits := by
  by_cases h : n < 16
  · interval_cases n <;> decide
  · rw [hexChar, List.getD_eq_default]
    · decide
    · show hexDigits.length ≤ n
      have : hexDigits.length = 16 := by decide
      omega

theorem bytesHex_mem (bs : List Nat) (c : Char) (hc : c ∈ bytesHex bs) :
    c ∈ hexDigits := by
  induction bs with
  | nil => cases hc
  | cons b rest ih =>
    rcases List.mem_cons.mp hc with h | h
    · exact h ▸ hexChar_mem _
    · rcases List.mem_cons.mp h with h1 | h1
      · exact h1 ▸ hexChar_mem _
      · exact ih h1

/-- C2: the derived unique identifier is a pure function of the uid (or
serialized content) and the domain, and has the form
`<32 lowercase hex digits>@<domain>`. -/
theorem generate_uid_spec (e : Event) (d : String) :
    (∃ h : String, generateUid e d = h ++ "@" ++ d ∧ h.length = 32 ∧
      ∀ c ∈ h.data, c ∈ hexDigits) ∧
      ∀ e2 : Event, uidBase e = uidBase e2 → generateUid e d = generateUid e2 d := by
  constructor
  · refine ⟨md5hex (uidBase e), rfl, ?_, ?_⟩
    · show (bytesHex (md5Digest (utf8Encode (uidBase e).data))).length = 32
      rw [bytesHex_length, md5Digest_length]
    · intro c hc
      exact bytesHex_mem _ c hc
  · intro e2 h
    unfold generateUid
    rw [h]

/-- C2 witness: two events with the same uid but different content get
the same derived identifier, itself of the right shape. -/
theorem generate_uid_spec_witness :
    (∃ h : String, generateUid [("uid", Value.str "abc")] "camerge" = h ++ "@" ++ "camerge" ∧
      h.length = 32 ∧ ∀ c ∈ h.data, c ∈ hexDigits) ∧
      generateUid [("uid", Value.str "abc")] "camerge" =
        generateUid [("uid", Value.str "abc"), ("summary", Value.str "x")] "camerge" :=
  ⟨(generate_uid_spec [("uid", Value.str "abc")] "camerge").1,
    (generate_uid_spec [("uid", Value.str "abc")] "camerge").2
      [("uid", Value.str "abc"), ("summary", Value.str "x")] (by decide)⟩

/-! ## Merge-loop helper lemmas -/

theorem mergeComponents_cons_none (env : FetchEnv) (url : String) (anon : Bool)
    (rest : List (String × Bool)) (ke : List String) (ph dom : String)
    (cutoff : Option Date) (h : getCalendarData env url = none) :
    mergeComponents env ((url, anon) :: rest) ke ph dom cutoff =
      mergeComponents env rest ke ph dom cutoff := by
  simp only [mergeComponents, h]

theorem mergeComponents_cons_empty (env : FetchEnv) (url : String) (anon : Bool)
    (rest : List (String × Bool)) (ke : List String) (ph dom : String)
    (cutoff : Option Date) (h : getCalendarData env url = some "") :
    mergeComponents env ((url, anon) :: rest) ke ph dom cutoff =
      mergeComponents env rest ke ph dom cutoff := by
  simp only [mergeComponents, h]
  rfl

theorem mergeComponents_cons_some (env : FetchEnv) (url : String) (anon : Bool)
    (rest : List (String × Bool)) (ke : List String) (ph dom : String)
    (cutoff : Option Date) (t : String) (h : getCalendarData env url = some t)
    (ht : ¬t = "") :
    mergeComponents env ((url, anon) :: rest) ke ph dom cutoff =
      (processCalendarData t dom ke cutoff (if anon then some ph else none) none).bind
        fun components =>
          (mergeComponents env rest ke ph dom cutoff).bind fun more =>
            pure (components ++ more) := by
  simp only [mergeComponents, h]
  rw [if_neg (by simp [ht])]
  rfl

/-- A source whose fetch yields no data or empty text contributes
nothing: the merge of the list with it equals the merge without it. -/
theorem mergeComponents_skip (env : FetchEnv) (s : String) (b : Bool)
    (pre post : List (String × Bool)) (ke : List String) (ph dom : String)
    (cutoff : Option Date)
    (h : getCalendarData env s = none ∨ getCalendarData env s = some "") :
    mergeComponents env (pre ++ (s, b) :: post) ke ph dom cutoff =
      mergeComponents env (pre ++ post) ke ph dom cutoff := by
  induction pre with
  | nil =>
    rcases h with h | h
    · exact mergeComponents_cons_none env s b post ke ph dom cutoff h
    · exact mergeComponents_cons_empty env s b post ke ph dom cutoff h
  | cons p rest ih =>
    obtain ⟨url, anon⟩ := p
    cases hf : getCalendarData env url with
    | none =>
      simp only [List.cons_append]
      rw [mergeComponents_cons_none env url anon _ ke ph dom cutoff hf,
        mergeComponents_cons_none env url anon _ ke ph dom cutoff hf, ih]
    | some t =>
      by_cases ht : t = ""
      · subst ht
        simp only [List.cons_append]
        rw [mergeComponents_cons_empty env url anon _ ke ph dom cutoff hf,
          mergeComponents_cons_empty env url anon _ ke ph dom cutoff hf, ih]
      · simp only [List.cons_append]
        rw [mergeComponents_cons_some env url anon _ ke ph dom cutoff t hf ht,
          mergeComponents_cons_some env url anon _ ke ph dom cutoff t hf ht, ih]

/-! ## C6 -/

/-- Timezone components survive the processing loop verbatim. -/
theorem timezone_mem_processComponents (comps : List Component) (dom : String)
    (ke : List String) (cutoff : Option Date) (ph : Option String)
    (tz : List String) (htz : Component.timezone tz ∈ comps) :
    Component.timezone tz ∈ processComponents comps dom ke cutoff ph none := by
  induction comps with
  | nil => cases htz
  | cons c rest ih =>
    cases c with
    | timezone t =>
      simp only [processComponents]
      rcases List.mem_cons.mp htz with h | h
      · rw [h]
        exact List.mem_cons_self _ _
      · exact List.mem_cons_of_mem _ (ih h)
    | event e =>
      have h : Component.timezone tz ∈ rest := by
        rcases List.mem_cons.mp htz with h | h
        · simp at h
        · exact h
      simp only [processComponents]
      by_cases hs : shouldSkipEvent e cutoff = true
      · rw [if_pos hs]
        exact ih h
      · rw [if_neg hs]
        exact List.mem_cons_of_mem _ (ih h)
    | other n content =>
      have h : Component.timezone tz ∈ rest := by
        rcases List.mem_cons.mp htz with h | h
        · simp at h
        · exact h
      simp only [processComponents]
      exact ih h

/-- C6: every timezone component of a successfully parsed source is in
the processed output, unmodified — never dropped by the cutoff filter
and never transformed by the projector. -/
theorem timezone_passthrough (text dom : String) (ke : List String)
    (cutoff : Option Date) (ph : Option String) (comps : List Component)
    (hp : parseCalendar text = .ok comps) :
    processCalendarData text dom ke cutoff ph none =
      .ok (processComponents comps dom ke cutoff ph none) ∧
      ∀ tz, Component.timezone tz ∈ comps →
        Component.timezone tz ∈ processComponents comps dom ke cutoff ph none := by
  constructor
  · unfold processCalendarData
    rw [hp]
    rfl
  · intro tz htz
    exact timezone_mem_processComponents comps dom ke cutoff ph tz htz

/-- C6 witness: a concrete calendar with one timezone block, parsed and
processed; the timezone component appears in the output untouched. -/
theorem timezone_passthrough_witness :
    processCalendarData icsTz "camerge" [] none (some "busy") none =
      .ok (processComponents [Component.timezone ["TZID:Europe/Prague"]]
        "camerge" [] none (some "busy") none) ∧
      Component.timezone ["TZID:Europe/Prague"] ∈
        processComponents [Component.timezone ["TZID:Europe/Prague"]]
          "camerge" [] none (some "busy") none :=
  ⟨(timezone_passthrough icsTz "camerge" [] none (some "busy")
      [Component.timezone ["TZID:Europe/Prague"]] (by rfl)).1,
    (timezone_passthrough icsTz "camerge" [] none (some "busy")
      [Component.timezone ["TZID:Europe/Prague"]] (by rfl)).2
      ["TZID:Europe/Prague"] (by decide)⟩

/-! ## C8 -/

/-- C8: every retrieval failure — filesystem error, HTTP error, or an
unrecognized scheme — becomes a no-data result, and the merge loop
drops exactly that source, leaving the other sources' contribution
unchanged. -/
theorem fetch_failure_skips_source (env : FetchEnv) :
    (∀ s, strStarts s "file://" = true → env.readFile (strDrop s 7) = .error () →
      getCalendarData env s = none) ∧
      (∀ s, strStarts s "file://" = false →
        (strStarts s "http" = true ∨ strStarts s "webcal://" = true) →
        env.httpGet (if strStarts s "webcal://" = true
          then strReplace s "webcal" "http" else s) = .error () →
        getCalendarData env s = none) ∧
      (∀ s, strStarts s "file://" = false → strStarts s "http" = false →
        strStarts s "webcal://" = false → strStarts s "data://" = false →
        getCalendarData env s = none) ∧
      ∀ (pre post : List (String × Bool)) (s : String) (b : Bool) (ke : List String)
        (ph dom : String) (cutoff : Option Date),
        getCalendarData env s = none →
          mergeComponents env (pre ++ (s, b) :: post) ke ph dom cutoff =
            mergeComponents env (pre ++ post) ke ph dom cutoff := by
  refine ⟨?_, ?_, ?_, ?_⟩
  · intro s h1 h2
    unfold getCalendarData
    rw [if_pos h1, h2]
    rfl
  · intro s h1 h2 h3
    unfold getCalendarData
    rw [if_neg (by simp [h1]), if_pos (show (strStarts s "http" || strStarts s "webcal://") = true by
      rcases h2 with h | h <;> simp [h])]
    show (env.httpGet (if strStarts s "webcal://" = true
      then strReplace s "webcal" "http" else s)).toOption = none
    rw [h3]
    rfl
  · intro s h1 h2 h3 h4
    unfold getCalendarData
    rw [if_neg (by simp [h1]), if_neg (by simp [h2, h3]), if_neg (by simp [h4])]
  · intro pre post s b ke ph dom cutoff h
    exact mergeComponents_skip env s b pre post ke ph dom cutoff (Or.inl h)

/-- C8 witness: with every HTTP request failing, a merge over three
sources where the middle one is an HTTP source equals the merge over
the two surviving sources. -/
theorem fetch_failure_skips_source_witness :
    mergeComponents failEnv
        [("data://" ++ icsTz, true), ("http://x", false), ("data://" ++ icsTz, false)]
        [] "busy" "camerge" none =
      mergeComponents failEnv
        [("data://" ++ icsTz, true), ("data://" ++ icsTz, false)]
        [] "busy" "camerge" none :=
  (fetch_failure_skips_source failEnv).2.2.2
    [("data://" ++ icsTz, true)] [("data://" ++ icsTz, false)]
    "http://x" false [] "busy" "camerge" none (by decide)

/-! ## C9 -/

/-- C9: a fetched empty text — such as the `data://` descriptor with
nothing after the scheme — is treated exactly like a fetch failure by
the orchestrator's falsiness check, and the source is skipped. -/
theorem empty_data_source_skipped :
    (∀ env : FetchEnv, getCalendarData env "data://" = some "") ∧
      ∀ (env : FetchEnv) (pre post : List (String × Bool)) (s : String) (b : Bool)
        (ke : List String) (ph dom : String) (cutoff : Option Date),
        getCalendarData env s = some "" →
          mergeComponents env (pre ++ (s, b) :: post) ke ph dom cutoff =
            mergeComponents env (pre ++ post) ke ph dom cutoff :=
  ⟨fun _ => rfl,
    fun env pre post s b ke ph dom cutoff h =>
      mergeComponents_skip env s b pre post ke ph dom cutoff (Or.inr h)⟩

/-- C9 witness: a lone `data://` source is skipped, leaving the empty
merge. -/
theorem empty_data_source_skipped_witness :
    mergeComponents failEnv [("data://", true)] [] "busy" "camerge" none =
      mergeComponents failEnv [] [] "busy" "camerge" none :=
  empty_data_source_skipped.2 failEnv [] [] "data://" true [] "busy" "camerge" none
    (by decide)

/-! ## C4 -/

/-- A source whose fetched text fails to parse makes the whole
accumulation loop surface an error, wherever it sits in the list. -/
theorem mergeComponents_error (env : FetchEnv) (sources : List (String × Bool))
    (ke : List String) (ph dom : String) (cutoff : Option Date)
    (h : ∃ p ∈ sources, ∃ t, getCalendarData env p.1 = some t ∧ ¬t = "" ∧
      ∃ err, parseCalendar t = .error err) :
    ∃ err, mergeComponents env sources ke ph dom cutoff = .error err := by
  induction sources with
  | nil =>
    obtain ⟨p, hp, _⟩ := h
    cases hp
  | cons q rest ih =>
    obtain ⟨url, anon⟩ := q
    obtain ⟨p, hp, t, hft, hne, err, hperr⟩ := h
    rcases List.mem_cons.mp hp with hq | hq
    · subst hq
      rw [mergeComponents_cons_some env url anon rest ke ph dom cutoff t hft hne]
      have hproc : processCalendarData t dom ke cutoff
          (if anon then some ph else none) none = .error err := by
        unfold processCalendarData
        rw [hperr]
        rfl
      exact ⟨err, by rw [hproc]; rfl⟩
    · have hrest : ∃ p ∈ rest, ∃ t, getCalendarData env p.1 = some t ∧ ¬t = "" ∧
          ∃ err, parseCalendar t = .error err := ⟨p, hq, t, hft, hne, err, hperr⟩
      cases hf : getCalendarData env url with
      | none =>
        rw [mergeComponents_cons_none env url anon rest ke ph dom cutoff hf]
        exact ih hrest
      | some t2 =>
        by_cases ht2 : t2 = ""
        · subst ht2
          rw [mergeComponents_cons_empty env url anon rest ke ph dom cutoff hf]
          exact ih hrest
        · rw [mergeComponents_cons_some env url anon rest ke ph dom cutoff t2 hf ht2]
          obtain ⟨err2, herr2⟩ := ih hrest
          cases hproc : processCalendarData t2 dom ke cutoff
              (if anon then some ph else none) none with
          | error e2 => exact ⟨e2, rfl⟩
          | ok comps =>
            refine ⟨err2, ?_⟩
            show (mergeComponents env rest ke ph dom cutoff).bind _ = _
            rw [herr2]
            rfl

/-- C4 (amended): fetch failures are recovered per source, but a parse
failure on one source's fetched text is not: the parse error propagates
and `merge_calendars` surfaces it, aborting the whole merge. -/
theorem merge_surfaces_parse_failure (env : FetchEnv)
    (sources : List (String × Bool)) (kemails : Option (List String))
    (name ph dom : String) (cutoff : Option Date)
    (h : ∃ p ∈ sources, ∃ t, getCalendarData env p.1 = some t ∧ ¬t = "" ∧
      ∃ err, parseCalendar t = .error err) :
    ∃ err, mergeCalendars env sources kemails name ph dom cutoff = .error err := by
  obtain ⟨err, herr⟩ :=
    mergeComponents_error env sources (kemails.getD []) ph dom cutoff h
  refine ⟨err, ?_⟩
  unfold mergeCalendars
  rw [herr]
  rfl

/-- C4 witness: one inline source with unparseable text makes the merge
surface an error. -/
theorem merge_surfaces_parse_failure_witness :
    ∃ err, mergeCalendars failEnv [("data://garbage", false)] none "Merged Calendar"
      "busy" "camerge" none = .error err :=
  merge_surfaces_parse_failure failEnv [("data://garbage", false)] none
    "Merged Calendar" "busy" "camerge" none
    ⟨("data://garbage", false), by decide, "garbage", by decide, by decide,
      ⟨.parseError "missing BEGIN:VCALENDAR", by rfl⟩⟩

/-- C4 counterexample: the claim that `merge_calendars` never surfaces
an error fails — a single malformed inline source makes it return a
parse error instead of a calendar. -/
theorem merge_never_errors_counterexample :
    mergeCalendars failEnv [("data://garbage", false)] none "Merged Calendar"
      "busy" "camerge" none = .error (.parseError "missing BEGIN:VCALENDAR") := by
  rfl

end Camerge

